import Mathlib

/-!
Shallow embedding of the dsfs numeric core: `src/algebra.py` (vector and
matrix operations) and `src/statistics.py` (descriptive statistics).

Python `float` values are modelled as exact numbers (`ℚ` for the executable
layer, `ℝ` where a square root is involved).  Fallible Python functions are
modelled in `Except PyErr`:
  * a failed `assert ... , 'both vectors must have the same length'` /
    `'vectors must be the same length'` is `PyErr.lengthMismatch`;
  * a failed `assert vectors, 'no vectors provided'` is `PyErr.emptyInput`;
  * an `IndexError` from sequence indexing is `PyErr.indexOutOfRange`;
  * a `ZeroDivisionError` is `PyErr.zeroDivision`;
  * a `ValueError` (e.g. `max` of an empty sequence) is `PyErr.valueError`.
-/

deriving instance DecidableEq for Except

namespace Dsfs

/-- The error kinds a function of the embedded code can fail with. -/
inductive PyErr : Type
  | lengthMismatch
  | emptyInput
  | indexOutOfRange
  | zeroDivision
  | valueError
  deriving DecidableEq

/-- Python sequence indexing `l[i]`: indices in `[0, len l)` count from the
front, indices in `[-len l, 0)` count from the back, anything else raises
`IndexError`. -/
def pyGetElem {β : Type} (l : List β) (i : ℤ) : Except PyErr β :=
  if h : 0 ≤ i ∧ i < (l.length : ℤ) then
    .ok (l.get ⟨i.toNat, by omega⟩)
  else if h2 : -(l.length : ℤ) ≤ i ∧ i < 0 then
    .ok (l.get ⟨(i + l.length).toNat, by omega⟩)
  else
    .error .indexOutOfRange

section Algebra

variable {α : Type} [LinearOrderedField α]

/-- `add(v, w)` from `algebra.py`: asserts equal length, then the
elementwise sum `[v_item + w_item for v_item, w_item in zip(v, w)]`. -/
def add (v w : List α) : Except PyErr (List α) :=
  if v.length = w.length then .ok (List.zipWith (fun a b => a + b) v w)
  else .error .lengthMismatch

/-- `subtract(v, w)` from `algebra.py`: asserts equal length, then the
elementwise difference. -/
def subtract (v w : List α) : Except PyErr (List α) :=
  if v.length = w.length then .ok (List.zipWith (fun a b => a - b) v w)
  else .error .lengthMismatch

/-- `vector_sum(vectors)` from `algebra.py`: asserts the list is non-empty
(`'no vectors provided'`) and that all vectors share the first vector's
length, then returns `[sum(vec[i] for vec in vectors) for i in range(n)]`. -/
def vector_sum (vectors : List (List α)) : Except PyErr (List α) :=
  match vectors with
  | [] => .error .emptyInput
  | v₀ :: rest =>
    if (v₀ :: rest).all (fun v => v.length = v₀.length) then
      .ok ((List.range v₀.length).map
        (fun i => ((v₀ :: rest).map (fun v => v.getD i 0)).sum))
    else .error .lengthMismatch

/-- `scalar_multiply(s, v)` from `algebra.py`: no checks, always succeeds. -/
def scalar_multiply (s : α) (v : List α) : List α :=
  v.map (fun x => s * x)

/-- `vector_mean(vectors)` from `algebra.py`.  Python evaluates the call
arguments left to right: `1/n` first (a `ZeroDivisionError` when
`n = len(vectors) = 0`), then `vector_sum(vectors)`, then applies
`scalar_multiply`. -/
def vector_mean (vectors : List (List α)) : Except PyErr (List α) :=
  if vectors.length = 0 then .error .zeroDivision
  else
    match vector_sum vectors with
    | .ok s => .ok (scalar_multiply (1 / (vectors.length : α)) s)
    | .error e => .error e

/-- The sum of elementwise products `sum(v_item * w_item for ... in zip(v, w))`
shared by `dot` and `sum_of_squares`. -/
def dotAux (v w : List α) : α :=
  (List.zipWith (fun a b => a * b) v w).sum

/-- `dot(v, w)` from `algebra.py`: asserts equal length, then the sum of
elementwise products. -/
def dot (v w : List α) : Except PyErr α :=
  if v.length = w.length then .ok (dotAux v w) else .error .lengthMismatch

/-- `sum_of_squares(v)` from `algebra.py`: `dot(v, v)`; the length assert of
`dot` trivially passes, so this is total. -/
def sum_of_squares (v : List α) : α :=
  dotAux v v

end Algebra

/-- `magnitude(v)` from `algebra.py`: `math.sqrt(sum_of_squares(v))`. -/
noncomputable def magnitude (v : List ℝ) : ℝ :=
  Real.sqrt (sum_of_squares v)

/-- `distance(v, w)` from `algebra.py`: `magnitude(subtract(v, w))`; fails
exactly when `subtract` does. -/
noncomputable def distance (v w : List ℝ) : Except PyErr ℝ :=
  match subtract v w with
  | .ok d => .ok (magnitude d)
  | .error e => .error e

/-- View a real list of known length as a point of the Euclidean space
`ℝ^n`, padding with `0` (never exercised when `v.length = n`).  Used to
transport metric-space facts to `magnitude`/`distance`. -/
def toEuc (n : ℕ) (v : List ℝ) : EuclideanSpace ℝ (Fin n) :=
  fun i => v.getD i 0

/-- `get_row(A, i)` from `algebra.py`: plain Python indexing `A[i]`. -/
def get_row (A : List (List ℚ)) (i : ℤ) : Except PyErr (List ℚ) :=
  pyGetElem A i

/-- `get_column(A, j)` from `algebra.py`: the comprehension
`[A_i[j] for A_i in A]`, evaluated row by row; the first failing row's
`IndexError` propagates, and an empty matrix yields `[]` for any `j`. -/
def get_column (A : List (List ℚ)) (j : ℤ) : Except PyErr (List ℚ) :=
  match A with
  | [] => .ok []
  | row :: rest =>
    match pyGetElem row j, get_column rest j with
    | .ok x, .ok xs => .ok (x :: xs)
    | .error e, _ => .error e
    | .ok _, .error e => .error e

/-- Python's `sorted(xs)`: a sorted copy of `xs` (the original is not
mutated; in this pure embedding that is automatic). -/
def pySorted (xs : List ℚ) : List ℚ :=
  List.insertionSort (fun a b => a ≤ b) xs

/-- `mean(xs)` from `statistics.py`: `sum(xs) / len(xs)` with no emptiness
check, so the empty list raises `ZeroDivisionError`. -/
def mean (xs : List ℚ) : Except PyErr ℚ :=
  if xs.length = 0 then .error .zeroDivision
  else .ok (xs.sum / (xs.length : ℚ))

/-- `_median_odd(xs)` from `statistics.py`: `sorted(xs)[len(xs) // 2]`. -/
def medianOdd (xs : List ℚ) : Except PyErr ℚ :=
  pyGetElem (pySorted xs) ((xs.length / 2 : ℕ) : ℤ)

/-- `_median_even(xs)` from `statistics.py`: with `hi = len(xs) // 2`,
`(sorted(xs)[hi - 1] + sorted(xs)[hi]) / 2`; `sorted(xs)[hi - 1]` is
evaluated first. -/
def medianEven (xs : List ℚ) : Except PyErr ℚ :=
  let sorted_xs := pySorted xs
  let hi_midpoint : ℕ := xs.length / 2
  match pyGetElem sorted_xs ((hi_midpoint : ℤ) - 1),
        pyGetElem sorted_xs (hi_midpoint : ℤ) with
  | .ok a, .ok b => .ok ((a + b) / 2)
  | .error e, _ => .error e
  | .ok _, .error e => .error e

/-- `median(v)` from `statistics.py`: dispatch on parity of the length. -/
def median (v : List ℚ) : Except PyErr ℚ :=
  if v.length % 2 = 0 then medianEven v else medianOdd v

/-- Python's `int()` on a rational value: truncation toward zero. -/
def pyTrunc (q : ℚ) : ℤ :=
  if 0 ≤ q then ⌊q⌋ else ⌈q⌉

/-- `quantile(xs, p)` from `statistics.py`:
`sorted(xs)[int(p * len(xs))]`. -/
def quantile (xs : List ℚ) (p : ℚ) : Except PyErr ℚ :=
  pyGetElem (pySorted xs) (pyTrunc (p * (xs.length : ℚ)))

/-- Python's `max` over a list of counts: `ValueError` on an empty
sequence. -/
def pyMax (l : List ℕ) : Except PyErr ℕ :=
  match l with
  | [] => .error .valueError
  | a :: as => .ok (as.foldl max a)

/-- `mode(x)` from `statistics.py`: `Counter(x)` tallies each distinct value
of `x`; `max_count` is the largest tally; the result keeps the distinct
values whose tally equals `max_count`. -/
def mode (x : List ℚ) : Except PyErr (List ℚ) :=
  let keys := x.dedup
  match pyMax (keys.map (fun v => x.count v)) with
  | .error e => .error e
  | .ok max_count => .ok (keys.filter (fun v => x.count v = max_count))

/-! ### Facts about Python indexing -/

theorem pyGetElem_ok_nat {β : Type} (l : List β) (i : ℕ) (h : i < l.length) :
    pyGetElem l (i : ℤ) = .ok (l.get ⟨i, h⟩) := by
  unfold pyGetElem
  rw [dif_pos (by omega : (0 : ℤ) ≤ (i : ℤ) ∧ (i : ℤ) < (l.length : ℤ))]
  rfl

theorem pyGetElem_err_iff {β : Type} (l : List β) (i : ℤ) :
    pyGetElem l i = .error .indexOutOfRange ↔
      i < -(l.length : ℤ) ∨ (l.length : ℤ) ≤ i := by
  unfold pyGetElem
  by_cases h : 0 ≤ i ∧ i < (l.length : ℤ)
  · rw [dif_pos h]
    simp only [reduceCtorEq, false_iff]
    omega
  · rw [dif_neg h]
    by_cases h2 : -(l.length : ℤ) ≤ i ∧ i < 0
    · rw [dif_pos h2]
      simp only [reduceCtorEq, false_iff]
      omega
    · rw [dif_neg h2]
      simp only [true_iff]
      omega

theorem pyGetElem_ok_or_err {β : Type} (l : List β) (i : ℤ)
    (h : -(l.length : ℤ) ≤ i ∧ i < (l.length : ℤ)) :
    ∃ x, pyGetElem l i = .ok x := by
  unfold pyGetElem
  by_cases h1 : 0 ≤ i ∧ i < (l.length : ℤ)
  · rw [dif_pos h1]; exact ⟨_, rfl⟩
  · rw [dif_neg h1, dif_pos (by omega : -(l.length : ℤ) ≤ i ∧ i < 0)]
    exact ⟨_, rfl⟩

/-! ### C4: mean -/

/-- C4 (counterexample): the claim says `mean([])` fails with an `EmptyInput`
error; the code `sum(xs) / len(xs)` has no emptiness check and raises
`ZeroDivisionError` instead. -/
theorem mean_empty_counterexample :
    mean [] ≠ .error .emptyInput ∧ mean [] = .error .zeroDivision := by
  decide

/-- C4 (amended): `mean(xs)` fails with a division-by-zero error when `xs` is
empty; for every non-empty `xs` it returns the sum of the elements divided by
their count. -/
theorem mean_spec (xs : List ℚ) (h : xs ≠ []) :
    mean ([] : List ℚ) = .error .zeroDivision ∧
      mean xs = .ok (xs.sum / (xs.length : ℚ)) := by
  refine ⟨rfl, ?_⟩
  unfold mean
  rw [if_neg (fun hl => h (List.length_eq_zero.mp hl))]

theorem mean_spec_witness :
    mean ([] : List ℚ) = .error .zeroDivision ∧
      mean [1, 2, 3] = .ok (([1, 2, 3] : List ℚ).sum / (([1, 2, 3] : List ℚ).length : ℚ)) :=
  mean_spec [1, 2, 3] (by decide)

/-! ### C1: vector_mean -/

/-- C1 (counterexample): the claim says `vector_mean([])` fails with an
`EmptyInput` error; Python evaluates `1/n` (with `n = len(vectors) = 0`)
before calling `vector_sum`, so the call raises `ZeroDivisionError` and never
reaches the `'no vectors provided'` assert. -/
theorem vector_mean_empty_counterexample :
    vector_mean ([] : List (List ℚ)) ≠ .error .emptyInput ∧
      vector_mean ([] : List (List ℚ)) = .error .zeroDivision := by
  decide

/-- C1 (amended): `vector_mean` on the empty list fails with a
division-by-zero error (no NaN or infinity is produced); for every non-empty
list of equal-length vectors it returns
`scalar_multiply (1/n) (vector_sum vectors)` where `n` is the count. -/
theorem vector_mean_spec (v₀ : List ℚ) (rest : List (List ℚ))
    (hlen : ∀ v ∈ v₀ :: rest, v.length = v₀.length) :
    vector_mean ([] : List (List ℚ)) = .error .zeroDivision ∧
    ∃ w, vector_sum (v₀ :: rest) = .ok w ∧
      vector_mean (v₀ :: rest) =
        .ok (scalar_multiply (1 / (((v₀ :: rest).length : ℚ))) w) := by
  refine ⟨rfl, ?_⟩
  have hall : ((v₀ :: rest).all fun v => decide (v.length = v₀.length)) = true := by
    simp only [List.all_eq_true, decide_eq_true_eq]
    exact hlen
  have hs : vector_sum (v₀ :: rest) =
      .ok ((List.range v₀.length).map
        (fun i => ((v₀ :: rest).map (fun v => v.getD i 0)).sum)) := by
    simp only [vector_sum]
    rw [if_pos hall]
  refine ⟨_, hs, ?_⟩
  unfold vector_mean
  rw [if_neg (by simp), hs]

theorem vector_mean_spec_witness :
    vector_mean ([] : List (List ℚ)) = .error .zeroDivision ∧
    ∃ w, vector_sum [[1, 2], [3, 4], [5, 6]] = .ok w ∧
      vector_mean [[1, 2], [3, 4], [5, 6]] =
        .ok (scalar_multiply
          (1 / ((([[1, 2], [3, 4], [5, 6]] : List (List ℚ)).length : ℚ))) w) :=
  vector_mean_spec [1, 2] [[3, 4], [5, 6]] (by decide)

/-! ### C2: get_row and get_column index errors -/

theorem get_column_err_of_bad_index (A : List (List ℚ)) (j : ℤ) (c : ℕ)
    (hA : A ≠ []) (hrect : ∀ row ∈ A, row.length = c)
    (hbad : j < -(c : ℤ) ∨ (c : ℤ) ≤ j) :
    get_column A j = .error .indexOutOfRange := by
  match A with
  | [] => exact absurd rfl hA
  | row :: rest =>
    have hrow : pyGetElem row j = .error .indexOutOfRange := by
      rw [pyGetElem_err_iff, hrect row (List.mem_cons_self row rest)]
      exact hbad
    simp only [get_column, hrow]

theorem get_column_ok_of_good_index (A : List (List ℚ)) (j : ℤ) (c : ℕ)
    (hrect : ∀ row ∈ A, row.length = c)
    (hgood : -(c : ℤ) ≤ j ∧ j < (c : ℤ)) :
    ∃ col, get_column A j = .ok col := by
  induction A with
  | nil => exact ⟨[], rfl⟩
  | cons row rest ih =>
    obtain ⟨x, hx⟩ := pyGetElem_ok_or_err row j
      (by rw [hrect row (List.mem_cons_self row rest)]; exact hgood)
    obtain ⟨xs, hxs⟩ := ih (fun r hr => hrect r (List.mem_cons_of_mem row hr))
    exact ⟨x :: xs, by simp only [get_column, hx, hxs]⟩

/-- C2 (counterexample): the claim says `get_row(A, i)` fails with
`IndexOutOfRange` whenever `i` is outside `[0, row_count)`; but Python
sequence indexing accepts negative indices, so `get_row(A, -1)` on a 2-row
matrix succeeds and returns the last row. -/
theorem get_row_counterexample :
    ¬ (0 ≤ (-1 : ℤ) ∧ (-1 : ℤ) < ([[1, 2, 3], [4, 5, 6]] : List (List ℚ)).length) ∧
      get_row [[1, 2, 3], [4, 5, 6]] (-1) = .ok [4, 5, 6] := by
  decide

/-- C2 (amended): `get_row` and `get_column` follow Python sequence
indexing: for a non-empty rectangular matrix they fail with `IndexOutOfRange`
exactly when the index falls outside `[-len, len)` (indices in `[-len, 0)`
address from the back); in particular `get_row` with index 99 on a 2-row
matrix fails with `IndexOutOfRange`. -/
theorem get_row_get_column_range (A : List (List ℚ)) (i j : ℤ) (c : ℕ)
    (hA : A ≠ []) (hrect : ∀ row ∈ A, row.length = c) :
    (get_row A i = .error .indexOutOfRange ↔
      (i < -(A.length : ℤ) ∨ (A.length : ℤ) ≤ i)) ∧
    (get_column A j = .error .indexOutOfRange ↔
      (j < -(c : ℤ) ∨ (c : ℤ) ≤ j)) ∧
    get_row [[1, 2, 3], [4, 5, 6]] 99 = .error .indexOutOfRange := by
  refine ⟨pyGetElem_err_iff A i, ⟨?_, get_column_err_of_bad_index A j c hA hrect⟩, by decide⟩
  intro herr
  by_contra hgood
  obtain ⟨col, hcol⟩ := get_column_ok_of_good_index A j c hrect (by omega)
  rw [hcol] at herr
  exact absurd herr (by simp)

theorem get_row_get_column_range_witness :
    (get_row [[1, 2, 3], [4, 5, 6]] 2 = .error .indexOutOfRange ↔
      ((2 : ℤ) < -(([[1, 2, 3], [4, 5, 6]] : List (List ℚ)).length : ℤ) ∨
        (([[1, 2, 3], [4, 5, 6]] : List (List ℚ)).length : ℤ) ≤ 2)) ∧
    (get_column [[1, 2, 3], [4, 5, 6]] (-4) = .error .indexOutOfRange ↔
      ((-4 : ℤ) < -((3 : ℕ) : ℤ) ∨ ((3 : ℕ) : ℤ) ≤ -4)) ∧
    get_row [[1, 2, 3], [4, 5, 6]] 99 = .error .indexOutOfRange :=
  get_row_get_column_range [[1, 2, 3], [4, 5, 6]] 2 (-4) 3 (by decide) (by decide)

/-! ### C6: subtract undoes add -/

theorem zipWith_sub_zipWith_add (v w : List ℚ) (h : v.length = w.length) :
    List.zipWith (fun a b => a - b) (List.zipWith (fun a b => a + b) v w) w = v := by
  induction v generalizing w with
  | nil => simp
  | cons a v' ih =>
    match w with
    | [] => exact absurd h (by simp)
    | b :: w' =>
      simp only [List.zipWith, List.cons.injEq]
      exact ⟨add_sub_cancel_right a b, ih w' (by simpa using h)⟩

/-- C6: for equal-length vectors, `subtract(add(v, w), w)` recovers `v`:
`add` succeeds with the elementwise sum and subtracting `w` from it succeeds
and returns `v`. -/
theorem subtract_add_roundtrip (v w : List ℚ) (h : v.length = w.length) :
    add v w = .ok (List.zipWith (fun a b => a + b) v w) ∧
      subtract (List.zipWith (fun a b => a + b) v w) w = .ok v := by
  constructor
  · unfold add
    rw [if_pos h]
  · unfold subtract
    rw [if_pos (by rw [List.length_zipWith]; omega),
      zipWith_sub_zipWith_add v w h]

theorem subtract_add_roundtrip_witness :
    add [1, 2, 3] [4, 5, 6] =
        .ok (List.zipWith (fun a b => a + b) ([1, 2, 3] : List ℚ) [4, 5, 6]) ∧
      subtract (List.zipWith (fun a b => a + b) ([1, 2, 3] : List ℚ) [4, 5, 6]) [4, 5, 6] =
        .ok [1, 2, 3] :=
  subtract_add_roundtrip [1, 2, 3] [4, 5, 6] (by decide)

/-! ### C9: vector-producing operations preserve length -/

/-- C9: `add` and `subtract` of equal-length vectors return a vector of that
same length; `scalar_multiply` preserves length for any scalar; and
`vector_sum` of a non-empty list of vectors returns a vector with the length
of the first vector. -/
theorem length_preservation (s : ℚ) (v w v₀ : List ℚ) (rest : List (List ℚ))
    (h : v.length = w.length) :
    (∀ r, add v w = .ok r → r.length = v.length) ∧
    (∀ r, subtract v w = .ok r → r.length = v.length) ∧
    (scalar_multiply s v).length = v.length ∧
    (∀ r, vector_sum (v₀ :: rest) = .ok r → r.length = v₀.length) := by
  refine ⟨?_, ?_, by simp [scalar_multiply], ?_⟩
  · intro r hr
    unfold add at hr
    rw [if_pos h] at hr
    cases hr
    rw [List.length_zipWith]
    omega
  · intro r hr
    unfold subtract at hr
    rw [if_pos h] at hr
    cases hr
    rw [List.length_zipWith]
    omega
  · intro r hr
    simp only [vector_sum] at hr
    split at hr
    · cases hr
      simp
    · exact absurd hr (by simp)

theorem length_preservation_witness :
    (∀ r, add ([1, 2] : List ℚ) [3, 4] = .ok r → r.length = ([1, 2] : List ℚ).length) ∧
    (∀ r, subtract ([1, 2] : List ℚ) [3, 4] = .ok r → r.length = ([1, 2] : List ℚ).length) ∧
    (scalar_multiply (5 : ℚ) [1, 2]).length = ([1, 2] : List ℚ).length ∧
    (∀ r, vector_sum (([7, 8] : List ℚ) :: [[9, 10]]) = .ok r →
      r.length = ([7, 8] : List ℚ).length) :=
  length_preservation 5 [1, 2] [3, 4] [7, 8] [[9, 10]] (by decide)

/-! ### C10: mode -/

theorem self_le_foldl_max (l : List ℕ) (a : ℕ) : a ≤ l.foldl max a := by
  induction l generalizing a with
  | nil => exact le_refl a
  | cons c l' ih => exact le_trans (Nat.le_max_left a c) (ih (max a c))

theorem mem_le_foldl_max (l : List ℕ) (a b : ℕ) (hb : b ∈ l) : b ≤ l.foldl max a := by
  induction l generalizing a with
  | nil => cases hb
  | cons c l' ih =>
    rcases List.mem_cons.mp hb with rfl | hb'
    · exact le_trans (Nat.le_max_right a b) (self_le_foldl_max l' (max a b))
    · exact ih (max a c) hb'

theorem foldl_max_mem (l : List ℕ) (a : ℕ) : l.foldl max a ∈ a :: l := by
  induction l generalizing a with
  | nil => exact List.mem_cons_self _ _
  | cons c l' ih =>
    simp only [List.foldl]
    have h := ih (max a c)
    rcases List.mem_cons.mp h with h' | h'
    · rw [h']
      rcases max_choice a c with hm | hm
      · rw [hm]
        exact List.mem_cons_self _ _
      · rw [hm]
        exact List.mem_cons_of_mem _ (List.mem_cons_self _ _)
    · exact List.mem_cons_of_mem _ (List.mem_cons_of_mem _ h')

/-- C10: for every non-empty sequence, `mode` succeeds with a non-empty list
of pairwise-distinct values, each occurring in the input and each attaining
the maximum occurrence count among the input's values. -/
theorem mode_spec (x : List ℚ) (hx : x ≠ []) :
    ∃ m, mode x = .ok m ∧ m ≠ [] ∧ m.Nodup ∧
      (∀ y ∈ m, y ∈ x) ∧
      (∀ y ∈ m, ∀ z ∈ x, x.count z ≤ x.count y) := by
  match hk : x.dedup with
  | [] => exact absurd ((List.dedup_eq_nil _).mp hk) hx
  | k :: ks =>
    have hmode : mode x =
        .ok ((k :: ks).filter
          (fun v => decide (x.count v = (ks.map (fun v => x.count v)).foldl max (x.count k)))) := by
      simp only [mode, hk, List.map_cons, pyMax]
    set M := (ks.map (fun v => x.count v)).foldl max (x.count k) with hM
    have hMmem : M ∈ (k :: ks).map (fun v => x.count v) := by
      rw [List.map_cons]
      exact foldl_max_mem _ _
    obtain ⟨y₀, hy₀mem, hy₀⟩ := List.mem_map.mp hMmem
    have hfilter_mem : ∀ y, y ∈ (k :: ks).filter (fun v => decide (x.count v = M)) ↔
        y ∈ k :: ks ∧ x.count y = M := by
      intro y
      rw [List.mem_filter, decide_eq_true_eq]
    refine ⟨_, hmode, ?_, ?_, ?_, ?_⟩
    · exact List.ne_nil_of_mem ((hfilter_mem y₀).mpr ⟨hy₀mem, hy₀⟩)
    · exact List.Nodup.filter _ (hk ▸ x.nodup_dedup)
    · intro y hy
      have := ((hfilter_mem y).mp hy).1
      exact List.mem_dedup.mp (hk ▸ this)
    · intro y hy z hz
      rw [((hfilter_mem y).mp hy).2]
      have hzk : z ∈ k :: ks := hk ▸ List.mem_dedup.mpr hz
      have : x.count z ∈ (k :: ks).map (fun v => x.count v) :=
        List.mem_map.mpr ⟨z, hzk, rfl⟩
      rw [List.map_cons] at this
      rcases List.mem_cons.mp this with h' | h'
      · rw [h', hM]
        exact self_le_foldl_max _ _
      · rw [hM]
        exact mem_le_foldl_max _ _ _ h'

theorem mode_spec_witness :
    ∃ m, mode [1, 2, 2, 3] = .ok m ∧ m ≠ [] ∧ m.Nodup ∧
      (∀ y ∈ m, y ∈ ([1, 2, 2, 3] : List ℚ)) ∧
      (∀ y ∈ m, ∀ z ∈ ([1, 2, 2, 3] : List ℚ),
        ([1, 2, 2, 3] : List ℚ).count z ≤ ([1, 2, 2, 3] : List ℚ).count y) :=
  mode_spec [1, 2, 2, 3] (by decide)

/-! ### Facts about Python sorted() -/

theorem pySorted_perm (xs : List ℚ) : (pySorted xs).Perm xs :=
  List.perm_insertionSort _ xs

theorem pySorted_sorted (xs : List ℚ) : List.Sorted (fun a b => a ≤ b) (pySorted xs) :=
  List.sorted_insertionSort _ xs

theorem pySorted_length (xs : List ℚ) : (pySorted xs).length = xs.length :=
  (pySorted_perm xs).length_eq

theorem pyGetElem_ok_int (l : List ℚ) (i : ℤ) (h0 : 0 ≤ i)
    (h : i < (l.length : ℤ)) : pyGetElem l i = .ok (l.getD i.toNat 0) := by
  unfold pyGetElem
  rw [dif_pos ⟨h0, h⟩]
  congr 1
  rw [List.getD_eq_getElem _ _ (by omega)]
  simp

theorem medianEven_eq (xs : List ℚ) :
    medianEven xs =
      match pyGetElem (pySorted xs) (((xs.length / 2 : ℕ) : ℤ) - 1),
            pyGetElem (pySorted xs) ((xs.length / 2 : ℕ) : ℤ) with
      | .ok a, .ok b => .ok ((a + b) / 2)
      | .error e, _ => .error e
      | .ok _, .error e => .error e := rfl

/-! ### C8: median -/

/-- C8: for a non-empty sequence, `median` is the middle element of a sorted
permutation of the input when the count is odd, and the average of the two
middle elements when the count is even; concretely
`median [1, 9, 2, 10] = 11/2`.  (The embedding is pure: the input list is
never mutated, matching Python's non-mutating `sorted`.) -/
theorem median_spec (xs : List ℚ) (h : xs ≠ []) :
    ∃ ys, xs.Perm ys ∧ List.Sorted (fun a b => a ≤ b) ys ∧
      (xs.length % 2 = 1 → median xs = .ok (ys.getD (xs.length / 2) 0)) ∧
      (xs.length % 2 = 0 →
        median xs =
          .ok ((ys.getD (xs.length / 2 - 1) 0 + ys.getD (xs.length / 2) 0) / 2)) ∧
      median [1, 9, 2, 10] = .ok (11 / 2) := by
  have hn : 0 < xs.length := List.length_pos.mpr h
  have hlen : (pySorted xs).length = xs.length := pySorted_length xs
  have hconc : median [1, 9, 2, 10] = .ok (11 / 2) := by
    norm_num [median, medianEven, pySorted, List.insertionSort, List.orderedInsert,
      pyGetElem]
    norm_num [show Int.toNat 2 = 2 from rfl]
  refine ⟨pySorted xs, (pySorted_perm xs).symm, pySorted_sorted xs, ?_, ?_, hconc⟩
  · intro hodd
    unfold median
    rw [if_neg (by omega)]
    unfold medianOdd
    rw [pyGetElem_ok_int _ _ (by omega) (by omega), Int.toNat_natCast]
  · intro heven
    have h2 : 2 ≤ xs.length := by omega
    have hhi : 1 ≤ xs.length / 2 := by omega
    unfold median
    rw [if_pos heven]
    rw [medianEven_eq,
      show ((xs.length / 2 : ℕ) : ℤ) - 1 = ((xs.length / 2 - 1 : ℕ) : ℤ) by omega,
      pyGetElem_ok_int _ _ (by omega) (by omega),
      pyGetElem_ok_int _ _ (by omega) (by omega), Int.toNat_natCast,
      Int.toNat_natCast]

theorem median_spec_witness :
    ∃ ys, List.Perm ([1, 9, 2, 10] : List ℚ) ys ∧ List.Sorted (fun a b => a ≤ b) ys ∧
      (([1, 9, 2, 10] : List ℚ).length % 2 = 1 →
        median [1, 9, 2, 10] = .ok (ys.getD (([1, 9, 2, 10] : List ℚ).length / 2) 0)) ∧
      (([1, 9, 2, 10] : List ℚ).length % 2 = 0 →
        median [1, 9, 2, 10] =
          .ok ((ys.getD (([1, 9, 2, 10] : List ℚ).length / 2 - 1) 0 +
            ys.getD (([1, 9, 2, 10] : List ℚ).length / 2) 0) / 2)) ∧
      median [1, 9, 2, 10] = .ok (11 / 2) :=
  median_spec [1, 9, 2, 10] (by decide)

/-! ### C3: quantile -/

/-- C3: for a non-empty sequence and `p` in `[0, 1)`, `quantile` returns the
element at index `floor(p * n)` of a sorted permutation of the input; for
`p = 1` the computed index equals `n`, which is out of range, and `quantile`
fails with `IndexOutOfRange` rather than silently clamping. -/
theorem quantile_spec (xs : List ℚ) (p : ℚ) (hxs : xs ≠ []) (hp0 : 0 ≤ p) :
    (p < 1 → ∃ ys, xs.Perm ys ∧ List.Sorted (fun a b => a ≤ b) ys ∧
        quantile xs p = .ok (ys.getD (⌊p * (xs.length : ℚ)⌋).toNat 0)) ∧
    (p = 1 → quantile xs p = .error .indexOutOfRange) := by
  have hn : 0 < xs.length := List.length_pos.mpr hxs
  have hlen : (pySorted xs).length = xs.length := pySorted_length xs
  have hmul0 : 0 ≤ p * (xs.length : ℚ) := by positivity
  have htrunc : pyTrunc (p * (xs.length : ℚ)) = ⌊p * (xs.length : ℚ)⌋ := by
    unfold pyTrunc
    rw [if_pos hmul0]
  constructor
  · intro hp1
    have hflr0 : 0 ≤ ⌊p * (xs.length : ℚ)⌋ := Int.floor_nonneg.mpr hmul0
    have hflr : ⌊p * (xs.length : ℚ)⌋ < (xs.length : ℤ) := by
      rw [Int.floor_lt]
      push_cast
      calc p * (xs.length : ℚ) < 1 * (xs.length : ℚ) := by
            apply mul_lt_mul_of_pos_right hp1
            exact_mod_cast hn
        _ = (xs.length : ℚ) := one_mul _
    refine ⟨pySorted xs, (pySorted_perm xs).symm, pySorted_sorted xs, ?_⟩
    unfold quantile
    rw [htrunc, pyGetElem_ok_int _ _ hflr0 (by omega)]
  · intro hp1
    subst hp1
    unfold quantile
    rw [htrunc]
    rw [show ⌊(1 : ℚ) * (xs.length : ℚ)⌋ = (xs.length : ℤ) by
      rw [one_mul, Int.floor_natCast]]
    rw [pyGetElem_err_iff]
    omega

theorem quantile_spec_witness :
    ((1 / 2 : ℚ) < 1 → ∃ ys, List.Perm ([3, 1, 2] : List ℚ) ys ∧
        List.Sorted (fun a b => a ≤ b) ys ∧
        quantile [3, 1, 2] (1 / 2) =
          .ok (ys.getD (⌊(1 / 2 : ℚ) * ((([3, 1, 2] : List ℚ).length : ℚ))⌋).toNat 0)) ∧
    ((1 / 2 : ℚ) = 1 → quantile [3, 1, 2] (1 / 2) = .error .indexOutOfRange) :=
  quantile_spec [3, 1, 2] (1 / 2) (by decide) (by norm_num)

/-! ### C7: magnitude is nonnegative, zero iff all entries zero -/

theorem sum_of_squares_nonneg (v : List ℝ) : 0 ≤ sum_of_squares v := by
  induction v with
  | nil => simp [sum_of_squares, dotAux]
  | cons a t ih =>
    simp only [sum_of_squares, dotAux, List.zipWith_cons_cons, List.sum_cons]
    simp only [sum_of_squares, dotAux] at ih
    exact add_nonneg (mul_self_nonneg a) ih

theorem sum_of_squares_eq_zero_iff (v : List ℝ) :
    sum_of_squares v = 0 ↔ ∀ x ∈ v, x = 0 := by
  induction v with
  | nil => simp [sum_of_squares, dotAux]
  | cons a t ih =>
    simp only [sum_of_squares, dotAux, List.zipWith_cons_cons, List.sum_cons]
    simp only [sum_of_squares, dotAux] at ih
    rw [add_eq_zero_iff_of_nonneg (mul_self_nonneg a)
      (by simpa [sum_of_squares, dotAux] using sum_of_squares_nonneg t)]
    rw [mul_self_eq_zero, ih]
    simp [List.forall_mem_cons]

/-- C7: for every vector `v`, `magnitude v` is nonnegative, and it is zero
if and only if every element of `v` is zero. -/
theorem magnitude_spec (v : List ℝ) :
    0 ≤ magnitude v ∧ (magnitude v = 0 ↔ ∀ x ∈ v, x = 0) := by
  refine ⟨Real.sqrt_nonneg _, ?_⟩
  unfold magnitude
  rw [Real.sqrt_eq_zero']
  constructor
  · intro hle
    exact (sum_of_squares_eq_zero_iff v).mp
      (le_antisymm hle (sum_of_squares_nonneg v))
  · intro hall
    rw [(sum_of_squares_eq_zero_iff v).mpr hall]

/-! ### C5: triangle inequality for distance -/

theorem sum_of_squares_sub_eq (v w : List ℝ) (h : v.length = w.length) :
    sum_of_squares (List.zipWith (fun a b => a - b) v w) =
      ∑ i ∈ Finset.range v.length, (v.getD i 0 - w.getD i 0) ^ 2 := by
  induction v generalizing w with
  | nil => simp [sum_of_squares, dotAux]
  | cons a v' ih =>
    match w with
    | [] => exact absurd h (by simp)
    | b :: w' =>
      have h' : v'.length = w'.length := by simpa using h
      simp only [List.zipWith_cons_cons, sum_of_squares, dotAux, List.sum_cons,
        List.length_cons]
      rw [Finset.sum_range_succ']
      simp only [List.getD_cons_succ, List.getD_cons_zero]
      simp only [sum_of_squares, dotAux] at ih
      rw [ih w' h']
      ring

theorem magnitude_sub_eq_dist (n : ℕ) (v w : List ℝ) (hv : v.length = n)
    (hw : w.length = n) :
    magnitude (List.zipWith (fun a b => a - b) v w) =
      dist (toEuc n v) (toEuc n w) := by
  rw [EuclideanSpace.dist_eq]
  unfold magnitude
  congr 1
  rw [sum_of_squares_sub_eq v w (by omega), hv, Finset.sum_range]
  refine Finset.sum_congr rfl fun i _ => ?_
  simp only [toEuc, Real.dist_eq, sq_abs]

theorem distance_ok (v w : List ℝ) (h : v.length = w.length) :
    distance v w = .ok (magnitude (List.zipWith (fun a b => a - b) v w)) := by
  have hs : subtract v w = .ok (List.zipWith (fun a b => a - b) v w) := by
    unfold subtract
    rw [if_pos h]
  unfold distance
  rw [hs]

/-- C5: for equal-length vectors `v, w, u`, the distances computed by the
code satisfy the triangle inequality
`distance v w ≤ distance v u + distance u w`. -/
theorem distance_triangle (v w u : List ℝ) (a b c : ℝ)
    (hvw : v.length = w.length) (hvu : v.length = u.length)
    (ha : distance v w = .ok a) (hb : distance v u = .ok b)
    (hc : distance u w = .ok c) : a ≤ b + c := by
  rw [distance_ok v w hvw] at ha
  rw [distance_ok v u hvu] at hb
  rw [distance_ok u w (by omega)] at hc
  cases ha
  cases hb
  cases hc
  rw [magnitude_sub_eq_dist v.length v w rfl hvw.symm,
    magnitude_sub_eq_dist v.length v u rfl hvu.symm,
    magnitude_sub_eq_dist v.length u w (by omega) (by omega)]
  exact dist_triangle _ _ _

theorem distance_triangle_witness :
    Real.sqrt 25 ≤ Real.sqrt 9 + Real.sqrt 16 := by
  have h1 : distance [3, 4] [0, 0] = .ok (Real.sqrt 25) := by
    rw [distance_ok [3, 4] [0, 0] rfl]
    norm_num [magnitude, sum_of_squares, dotAux]
  have h2 : distance [3, 4] [0, 4] = .ok (Real.sqrt 9) := by
    rw [distance_ok [3, 4] [0, 4] rfl]
    norm_num [magnitude, sum_of_squares, dotAux]
  have h3 : distance [0, 4] [0, 0] = .ok (Real.sqrt 16) := by
    rw [distance_ok [0, 4] [0, 0] rfl]
    norm_num [magnitude, sum_of_squares, dotAux]
  exact distance_triangle [3, 4] [0, 0] [0, 4] _ _ _ rfl rfl h1 h2 h3

end Dsfs
